import Mathlib

/-!
Verification of the grouping-and-aggregation core of the Stats_Import
repository (`get_data.py`, `scripts/statscan_data_manager.py`).

Records are Python dictionaries mapping attribute names to values that are
strings, numbers, or `None`.  We embed them as association lists with
dictionary-style lookup and update.  Python exceptions (`KeyError`,
`TypeError`, `StatisticsError`, `ValueError`, `IndexError`) are embedded as
`Except Unit`; statements about "raising" are statements about `.error`.
-/

namespace StatsImport

/-- A Python value occurring in a data-point dictionary: a string, a number
(ints and floats embedded as rationals; the arithmetic appearing in the
claims is exact), or `None`. -/
inductive Value where
  | str : String → Value
  | num : ℚ → Value
  | null : Value
deriving DecidableEq, Repr

/-- A data-point dictionary: association list from attribute name to value,
in insertion order (Python dicts preserve insertion order). -/
abbrev Record := List (String × Value)

/-- Dictionary lookup `d[k]`, first matching key. -/
def rlookup : Record → String → Option Value
  | [], _ => none
  | (k, v) :: rest, key => if k = key then some v else rlookup rest key

/-- Dictionary assignment `d[k] = v`: replaces the value at an existing key
in place, appends a new entry otherwise (Python insertion-order semantics). -/
def rupdate : Record → String → Value → Record
  | [], key, v => [(key, v)]
  | (k, w) :: rest, key, v =>
    if k = key then (k, v) :: rest else (k, w) :: rupdate rest key v

/-- The attribute names of a record, `d.keys()` in order. -/
def rkeys (r : Record) : List String := r.map Prod.fst

/-- Python dictionary equality `a == b`: same key set, equal value at every
key. -/
def dictEq (a b : Record) : Bool :=
  a.all (fun kv => decide (rlookup b kv.1 = some kv.2)) &&
  b.all (fun kv => decide (rlookup a kv.1 = some kv.2))

/-- `a.keys() == b.keys()` — Python compares key views as sets. -/
def keys_match (a b : Record) : Bool :=
  (rkeys a).all (fun k => decide (k ∈ rkeys b)) &&
  (rkeys b).all (fun k => decide (k ∈ rkeys a))

/-- Python list membership `d in g` for a list of dictionaries (uses `==`). -/
def memR (d : Record) (g : List Record) : Bool := g.any (fun x => dictEq x d)

/-- The sentinel marking a group's summary record. -/
def sentinel : Value := Value.str "Mean (Average)"

/-- `'Mean (Average)' in d.values()`. -/
def hasSentinel (d : Record) : Bool := d.any (fun kv => decide (kv.2 = sentinel))

/-- The exclusion list built in `Director.main` (get_data.py line 55). -/
def excluded_columns : List String := ["VectorId", "Value", "Data_Value", "Scaled Value"]

/-- The loop of `Data_Analyzer.compare_data_point` (get_data.py lines
424-442): walks the entries of `comparison_data_point`, counting
non-excluded keys whose values differ; `a[key]` on a missing key raises
`KeyError` (`.error`); returns `None` as soon as the count exceeds 1, and
at the end returns the differing key iff the count is exactly 1. -/
def compare_loop (E : List String) (a : Record) :
    List (String × Value) → Nat → Option String → Except Unit (Option String)
  | [], diff, dk => .ok (if diff = 1 then dk else none)
  | (k, v) :: rest, diff, dk =>
    if k ∈ E then compare_loop E a rest diff dk
    else
      match rlookup a k with
      | none => .error ()
      | some av =>
        if av = v then compare_loop E a rest diff dk
        else if diff + 1 > 1 then .ok none
        else compare_loop E a rest (diff + 1) (some k)

/-- `Data_Analyzer.compare_data_point` (get_data.py lines 414-442). -/
def compare_data_point (E : List String) (a b : Record) : Except Unit (Option String) :=
  if dictEq a b then .ok none else compare_loop E a b 0 none

/-- The entries of `b` at which the comparator counts a difference: key not
excluded, and `a`'s value at it differs (or is missing). -/
def dFilter (E : List String) (a : Record) (b : Record) : List (String × Value) :=
  b.filter (fun kv => decide (kv.1 ∉ E) && decide (rlookup a kv.1 ≠ some kv.2))

/-- The list of non-excluded keys of `b` whose value differs from `a`. -/
def dKeys (E : List String) (a : Record) (b : Record) : List String :=
  (dFilter E a b).map Prod.fst

/-- Numeric view of a value, for `statistics.mean`. -/
def toNum : Value → Option ℚ
  | Value.num q => some q
  | _ => none

/-- `statistics.mean`: raises (`StatisticsError`) on an empty list and
(`TypeError`) when an element is `None` or a string; otherwise the exact
arithmetic mean. -/
def meanE (vs : List Value) : Except Unit ℚ :=
  match vs.mapM toNum with
  | none => .error ()
  | some qs => if qs.length = 0 then .error () else .ok (qs.sum / (qs.length : ℚ))

/-- `d['Data_Value']` with `KeyError` as `.error`. -/
def getDV (d : Record) : Except Unit Value :=
  match rlookup d "Data_Value" with
  | some v => .ok v
  | none => .error ()

/-- `d['Scaled Value']` with `KeyError` as `.error`. -/
def getSV (d : Record) : Except Unit Value :=
  match rlookup d "Scaled Value" with
  | some v => .ok v
  | none => .error ()

/-- Sequential list comprehension over a group, propagating the first
exception. -/
def mapE (f : Record → Except Unit Value) : List Record → Except Unit (List Value)
  | [] => .ok []
  | d :: rest =>
    match f d with
    | .error e => .error e
    | .ok v =>
      match mapE f rest with
      | .error e => .error e
      | .ok vs => .ok (v :: vs)

/-- `Data_Analyzer.update_summary_dict` (get_data.py lines 399-412):
collects every member's `Data_Value` (including the summary's own when the
summary is in `group`); if the summary's current `Data_Value` is not `None`,
overwrites it with the mean; then, if the first member has a
`'Scaled Value'` key (`group[0]` raises `IndexError` on an empty group),
overwrites the summary's `'Scaled Value'` with the mean of the members'. -/
def update_summary_dict (summary_dict : Record) (group : List Record) : Except Unit Record :=
  match mapE getDV group with
  | .error e => .error e
  | .ok data_values =>
    match getDV summary_dict with
    | .error e => .error e
    | .ok sdv =>
      match (if sdv = Value.null then .ok summary_dict
             else match meanE data_values with
               | .error e => .error e
               | .ok m => .ok (rupdate summary_dict "Data_Value" (Value.num m)) :
             Except Unit Record) with
      | .error e => .error e
      | .ok s1 =>
        match group with
        | [] => .error ()
        | g0 :: _ =>
          if (rlookup g0 "Scaled Value").isSome then
            match mapE getSV group with
            | .error e => .error e
            | .ok scaled_values =>
              match meanE scaled_values with
              | .error e => .error e
              | .ok m => .ok (rupdate s1 "Scaled Value" (Value.num m))
          else .ok s1

/-- `Data_Analyzer.create_summary_dict` (get_data.py lines 388-397): copies
`group[0]`, overwrites the differing key with the sentinel, and runs
`update_summary_dict` over the (summary-free) group. -/
def create_summary_dict (group : List Record) (differing_key : String) : Except Unit Record :=
  match group with
  | [] => .error ()
  | g0 :: _ => update_summary_dict (rupdate g0 differing_key sentinel) group

/-- `Data_Analyzer.get_summary_dict` (get_data.py lines 376-386): first
member with the sentinel among its values; raises `ValueError` if none. -/
def get_summary_dict (group : List Record) : Except Unit Record :=
  match group.find? hasSentinel with
  | some d => .ok d
  | none => .error ()

/-- In-place mutation of the summary dictionary object: the list position
holding the first member with the sentinel now holds the updated record. -/
def set_summary : List Record → Record → List Record
  | [], _ => []
  | d :: rest, s => if hasSentinel d then s :: rest else d :: set_summary rest s

/-- The generator `all(compare_data_point(dp, q) == differing_key for dp in
g)` of get_data.py line 352: short-circuits at the first member whose
comparison result is not the differing key (so later exceptions are not
raised). -/
def allCompareEq (E : List String) (g : List Record) (q : Record) (k : String) :
    Except Unit Bool :=
  match g with
  | [] => .ok true
  | dp :: rest =>
    match compare_data_point E dp q with
    | .error e => .error e
    | .ok r => if r = some k then allCompareEq E rest q k else .ok false

/-- The group-eligibility test of get_data.py lines 350-352: the `all`
generator runs only when `p` or `q` is already a member. -/
def group_matches (E : List String) (g : List Record) (p q : Record) (k : String) :
    Except Unit Bool :=
  if memR p g || memR q g then allCompareEq E g q k else .ok false

/-- The two guarded appends of get_data.py lines 354-357: append `p` unless
already a member, then `q` unless already a member. -/
def add_missing (g : List Record) (p q : Record) : List Record :=
  if memR q (if memR p g then g else g ++ [p]) then (if memR p g then g else g ++ [p])
  else (if memR p g then g else g ++ [p]) ++ [q]

/-- Extension of a matched group (get_data.py lines 353-364): append `p`
then `q` if missing, find the summary, recompute it over the extended group
(summary included), and write it back in place. -/
def extend_group (g : List Record) (p q : Record) : Except Unit (List Record) :=
  match get_summary_dict (add_missing g p q) with
  | .error e => .error e
  | .ok s =>
    match update_summary_dict s (add_missing g p q) with
    | .error e => .error e
    | .ok s1 => .ok (set_summary (add_missing g p q) s1)

/-- `Data_Analyzer.add_points_to_groups` (get_data.py lines 340-373): scan
the group list in order; extend the first group passing the eligibility
test and stop (`break`); if no group passes, append a new group `[p, q,
summary]` at the end. -/
def add_points_to_groups (E : List String) (p q : Record) (k : String) :
    List (List Record) → Except Unit (List (List Record))
  | [] =>
    match create_summary_dict [p, q] k with
    | .error e => .error e
    | .ok s => .ok [[p, q, s]]
  | g :: rest =>
    match group_matches E g p q k with
    | .error e => .error e
    | .ok true =>
      match extend_group g p q with
      | .error e => .error e
      | .ok g1 => .ok (g1 :: rest)
    | .ok false =>
      match add_points_to_groups E p q k rest with
      | .error e => .error e
      | .ok rest1 => .ok (g :: rest1)

/-- One inner-loop iteration of `Data_Analyzer.group_and_summarize_data`
(get_data.py lines 327-336): skip unless key sets match; skip unless the
comparator returns a truthy differing key (Python `if differing_key:` is
false for `None` and for the empty string). -/
def processPair (E : List String) (st : List (List Record)) (p q : Record) :
    Except Unit (List (List Record)) :=
  if keys_match p q then
    match compare_data_point E p q with
    | .error e => .error e
    | .ok none => .ok st
    | .ok (some k) => if k = "" then .ok st else add_points_to_groups E p q k st
  else .ok st

/-- `Data_Analyzer.group_and_summarize_data` (get_data.py lines 322-338):
all ordered pairs of the input, in nested-loop order, threaded through the
mutable group list starting from `[]`. -/
def group_and_summarize_data (E : List String) (data_dicts : List Record) :
    Except Unit (List (List Record)) :=
  data_dicts.foldlM (fun st p => data_dicts.foldlM (fun st q => processPair E st p q) st) []

/-- State of the Global Intersection Table computation in
`StatsCan_Manager.prep_data_for_export` (statscan_data_manager.py lines
48-65): the running key intersection `shared_keys` and the accumulated
`shared_keys_values`. -/
structure GitState where
  shared_keys : List String
  shared_keys_values : List (String × List Value)
deriving DecidableEq, Repr

/-- Python `set.add`: append a value unless already present. -/
def saddV (vs : List Value) (v : Value) : List Value :=
  if v ∈ vs then vs else vs ++ [v]

/-- `shared_keys_values[key].add(value)`, creating the entry first when the
key is absent. -/
def addVal : List (String × List Value) → String → Value → List (String × List Value)
  | [], k, v => [(k, [v])]
  | (k1, vs) :: rest, k, v =>
    if k1 = k then (k1, saddV vs v) :: rest else (k1, vs) :: addVal rest k v

/-- Lookup of a key's accumulated value set (empty when absent). -/
def tvals : List (String × List Value) → String → List Value
  | [], _ => []
  | (k1, vs) :: rest, k => if k1 = k then vs else tvals rest k

/-- Adding one data point's value for one shared key
(statscan_data_manager.py lines 61-65). -/
def gitAdd (d : Record) (t : List (String × List Value)) (k : String) :
    List (String × List Value) :=
  match rlookup d k with
  | some v => addVal t k v
  | none => t

/-- One data point of the table computation (statscan_data_manager.py lines
56-65): intersect the running key set with the point's keys, then add the
point's value for every key still in the running intersection. -/
def gitStep (st : GitState) (d : Record) : GitState :=
  ⟨st.shared_keys.filter (fun k => (rlookup d k).isSome),
   (st.shared_keys.filter (fun k => (rlookup d k).isSome)).foldl (gitAdd d)
     st.shared_keys_values⟩

/-- The Global Intersection Table part of
`StatsCan_Manager.prep_data_for_export` (statscan_data_manager.py lines
41-94): seed the running intersection with the keys of the first group's
first record (`IndexError` when absent), then fold over every data point of
every group. -/
def git_of_groups (groups : List (List Record)) : Except Unit GitState :=
  match groups with
  | (d0 :: g0rest) :: grest =>
    .ok (((d0 :: g0rest) :: grest).foldl (fun st g => g.foldl gitStep st)
      ⟨rkeys d0, []⟩)
  | _ => .error ()

/-- Concrete record: Year 2020, primary measurement 10 (claim C1's input). -/
def r2020 : Record :=
  [("ProductId", Value.num 1), ("Year", Value.str "2020"), ("Data_Value", Value.num 10)]

/-- Concrete record: Year 2021, primary measurement 20 (claim C1's input). -/
def r2021 : Record :=
  [("ProductId", Value.num 1), ("Year", Value.str "2021"), ("Data_Value", Value.num 20)]

/-- Concrete record: Year 2022, primary measurement 30 (claim C1's input). -/
def r2022 : Record :=
  [("ProductId", Value.num 1), ("Year", Value.str "2022"), ("Data_Value", Value.num 30)]

/-- The summary of the first two groups after the full run on the
three-record input: its `Data_Value` is the mean of 10, 20, 15 (the
summary's own previous value, included because the summary is a group
member) and 30, i.e. 75/4 = 18.75. -/
def sM75 : Record :=
  [("ProductId", Value.num 1), ("Year", sentinel), ("Data_Value", Value.num (75 / 4))]

/-- The summary of the third group after the full run on the three-record
input: mean of 30, 10, 20 (its own previous value) and 20. -/
def sM20 : Record :=
  [("ProductId", Value.num 1), ("Year", sentinel), ("Data_Value", Value.num 20)]

/-- Concrete two-attribute records used in the registry claims. -/
def a1 : Record := [("Year", Value.str "2020"), ("Data_Value", Value.num 10)]

def a2 : Record := [("Year", Value.str "2021"), ("Data_Value", Value.num 20)]

def a3 : Record := [("Year", Value.str "2022"), ("Data_Value", Value.num 30)]

def a4 : Record := [("Year", Value.str "2023"), ("Data_Value", Value.num 40)]

/-- A summary record with mean 15, as created for the group `[a1, a2]`. -/
def sA : Record := [("Year", sentinel), ("Data_Value", Value.num 15)]

/-- A summary record with mean 20, as created for the group `[a1, a3]`. -/
def sB : Record := [("Year", sentinel), ("Data_Value", Value.num 20)]

/-- The summary of the first counterexample group after the pair `(a1, a4)`
extends it: mean of 10, 20, 15 (the summary's own stale value) and 40. -/
def sA85 : Record := [("Year", sentinel), ("Data_Value", Value.num (85 / 4))]

/-- Records for the Global Intersection Table claims: `Extra` is present in
only two of the three records. -/
def rgA : Record := [("Region", Value.str "A"), ("Extra", Value.str "X")]

def rgB : Record := [("Region", Value.str "A"), ("Extra", Value.str "Y")]

def rgC : Record := [("Region", Value.str "B")]

/-- Records for the Global Intersection Table witness: `Region` everywhere,
observed values A, A, B. -/
def x1 : Record := [("Region", Value.str "A"), ("Data_Value", Value.num 1)]

def x2 : Record := [("Region", Value.str "A"), ("Data_Value", Value.num 2)]

def x3 : Record := [("Region", Value.str "B"), ("Data_Value", Value.num 3)]

theorem rlookup_rupdate_ne (r : Record) (k1 k2 : String) (v : Value) (h : k1 ≠ k2) :
    rlookup (rupdate r k1 v) k2 = rlookup r k2 := by
  induction r with
  | nil =>
    simp only [rupdate, rlookup]
    rw [if_neg h]
  | cons kv rest ih =>
    obtain ⟨k, w⟩ := kv
    simp only [rupdate]
    by_cases hk : k = k1
    · rw [if_pos hk]
      have h2 : ¬ k = k2 := by rw [hk]; exact h
      simp only [rlookup]
      rw [if_neg h2, if_neg h2]
    · rw [if_neg hk]
      simp only [rlookup]
      by_cases hk2 : k = k2
      · rw [if_pos hk2, if_pos hk2]
      · rw [if_neg hk2, if_neg hk2, ih]

theorem mem_rkeys {r : Record} {k : String} : k ∈ rkeys r ↔ (rlookup r k).isSome := by
  induction r with
  | nil => simp [rkeys, rlookup]
  | cons kv rest ih =>
    obtain ⟨k1, v⟩ := kv
    by_cases hk : k1 = k
    · subst hk
      simp [rkeys, rlookup]
    · have h2 : ¬ k = k1 := fun hx => hk hx.symm
      simpa [rkeys, rlookup, hk, h2] using ih

theorem mapE_getDV_all_null (g : List Record)
    (h : ∀ d ∈ g, rlookup d "Data_Value" = some Value.null) :
    mapE getDV g = .ok (g.map (fun _ => Value.null)) := by
  induction g with
  | nil => rfl
  | cons d rest ih =>
    have hd := h d (List.mem_cons_self d rest)
    have hrest := ih (fun d hm => h d (List.mem_cons_of_mem _ hm))
    simp [mapE, getDV, hd, hrest]

/-- Claim C9: `get_summary_dict` raises exactly when no member of the group
has the sentinel value `'Mean (Average)'` among its field values; when a
summary member exists, the returned record is a member that carries the
sentinel (the error is never silently recovered into a default). -/
theorem C9_get_summary_dict (group : List Record) :
    (get_summary_dict group = .error () ↔ ∀ d ∈ group, hasSentinel d = false) ∧
    (∀ d, get_summary_dict group = .ok d → d ∈ group ∧ hasSentinel d = true) := by
  induction group with
  | nil => simp [get_summary_dict, List.find?]
  | cons d rest ih =>
    cases hd : hasSentinel d
    · constructor
      · rw [show get_summary_dict (d :: rest) = get_summary_dict rest by
          simp [get_summary_dict, List.find?, hd]]
        rw [ih.1]
        constructor
        · intro h d' hm
          rcases List.mem_cons.1 hm with h0 | h0
          · exact h0 ▸ hd
          · exact h d' h0
        · intro h d' hm
          exact h d' (List.mem_cons_of_mem _ hm)
      · intro d' h
        rw [show get_summary_dict (d :: rest) = get_summary_dict rest by
          simp [get_summary_dict, List.find?, hd]] at h
        exact ⟨List.mem_cons_of_mem _ (ih.2 d' h).1, (ih.2 d' h).2⟩
    · constructor
      · rw [show get_summary_dict (d :: rest) = .ok d by
          simp [get_summary_dict, List.find?, hd]]
        constructor
        · intro h
          cases h
        · intro h
          have := h d (List.mem_cons_self d rest)
          rw [hd] at this
          cases this
      · intro d' h
        rw [show get_summary_dict (d :: rest) = .ok d by
          simp [get_summary_dict, List.find?, hd]] at h
        cases h
        exact ⟨List.mem_cons_self d rest, hd⟩

/-- Witness for C9 at the concrete one-member group `[sA]`. -/
theorem C9_get_summary_dict_witness : sA ∈ [sA] ∧ hasSentinel sA = true :=
  (C9_get_summary_dict [sA]).2 sA (by rfl)

theorem update_summary_dict_null_shape (s : Record) (group : List Record)
    (hnull : rlookup s "Data_Value" = some Value.null) :
    update_summary_dict s group = .error () ∨
    update_summary_dict s group = .ok s ∨
    ∃ m, update_summary_dict s group = .ok (rupdate s "Scaled Value" (Value.num m)) := by
  unfold update_summary_dict
  cases hmap : mapE getDV group with
  | error e =>
    left
    obtain ⟨⟩ := e
    rfl
  | ok dvs =>
    rw [show getDV s = .ok Value.null by simp [getDV, hnull]]
    cases group with
    | nil => left; rfl
    | cons g0 grest =>
      dsimp only
      rw [if_pos rfl]
      dsimp only
      by_cases hsv : (rlookup g0 "Scaled Value").isSome
      · rw [if_pos hsv]
        cases hsvs : mapE getSV (g0 :: grest) with
        | error e =>
          left
          obtain ⟨⟩ := e
          rfl
        | ok svs =>
          dsimp only
          cases hm : meanE svs with
          | error e =>
            left
            obtain ⟨⟩ := e
            rfl
          | ok m =>
            right; right
            exact ⟨m, rfl⟩
      · rw [if_neg hsv]
        right; left
        rfl

/-- Claim C10: whether the aggregate is recomputed depends only on the
summary record's own current `Data_Value`; whenever it is null, any
successful recompute leaves it null, whatever measurement values the
members hold. -/
theorem C10_null_summary_never_recomputed (s : Record) (group : List Record) (s1 : Record)
    (hnull : rlookup s "Data_Value" = some Value.null)
    (hok : update_summary_dict s group = .ok s1) :
    rlookup s1 "Data_Value" = some Value.null := by
  rcases update_summary_dict_null_shape s group hnull with h | h | ⟨m, h⟩
  · rw [h] at hok; cases hok
  · rw [h] at hok
    cases hok
    exact hnull
  · rw [h] at hok
    cases hok
    rw [rlookup_rupdate_ne _ _ _ _ (by decide)]
    exact hnull

/-- Witness for C10: a null summary stays null even over members with
numeric measurement values 10 and 20. -/
theorem C10_null_summary_never_recomputed_witness :
    rlookup [("Year", sentinel), ("Data_Value", Value.null)] "Data_Value" = some Value.null :=
  C10_null_summary_never_recomputed
    [("Year", sentinel), ("Data_Value", Value.null)] [a1, a2]
    [("Year", sentinel), ("Data_Value", Value.null)] (by rfl) (by rfl)

/-- Counterexample to claim C5: with a numeric summary value and a member
whose `Data_Value` is null, `update_summary_dict` raises (Python
`TypeError` inside `statistics.mean`) instead of setting the aggregate
field to null. -/
theorem C5_counterexample :
    update_summary_dict
      [("Year", sentinel), ("Data_Value", Value.num 10)]
      [[("Year", Value.str "2020"), ("Data_Value", Value.num 10)],
       [("Year", Value.str "2021"), ("Data_Value", Value.null)]] = .error () := by rfl

/-- Claim C5 (amended): the recompute avoids raising only through the
summary's own null check: when every member's `Data_Value` is null, the
summary (which copied a member's null) is returned unchanged, with a null
`Data_Value` and no exception; when the summary's value is numeric and a
member's value is non-numeric, the recompute raises. -/
theorem C5_all_null_group_no_raise (s g0 : Record) (grest : List Record)
    (hall : ∀ d ∈ g0 :: grest, rlookup d "Data_Value" = some Value.null)
    (hs : rlookup s "Data_Value" = some Value.null)
    (hsv : rlookup g0 "Scaled Value" = none) :
    update_summary_dict s (g0 :: grest) = .ok s := by
  unfold update_summary_dict
  rw [mapE_getDV_all_null _ hall]
  rw [show getDV s = .ok Value.null by simp [getDV, hs]]
  simp [hsv]

/-- Witness for C5 (amended) at a concrete all-null two-member group. -/
theorem C5_all_null_group_no_raise_witness :
    update_summary_dict [("Year", sentinel), ("Data_Value", Value.null)]
      [[("Year", Value.str "2020"), ("Data_Value", Value.null)],
       [("Year", Value.str "2021"), ("Data_Value", Value.null)]] =
      .ok [("Year", sentinel), ("Data_Value", Value.null)] :=
  C5_all_null_group_no_raise
    [("Year", sentinel), ("Data_Value", Value.null)]
    [("Year", Value.str "2020"), ("Data_Value", Value.null)]
    [[("Year", Value.str "2021"), ("Data_Value", Value.null)]]
    (by intro d hm; fin_cases hm <;> rfl) (by rfl) (by rfl)

theorem rlookup_eq_of_mem_nodup {r : Record} (hnd : (rkeys r).Nodup) {k : String} {v : Value}
    (h : (k, v) ∈ r) : rlookup r k = some v := by
  induction r with
  | nil => cases h
  | cons kv rest ih =>
    obtain ⟨k1, w⟩ := kv
    have hnd1 : (k1 :: rkeys rest).Nodup := hnd
    have hnc := List.nodup_cons.1 hnd1
    rcases List.mem_cons.1 h with h0 | h0
    · injection h0 with h1 h2
      subst h1
      subst h2
      simp [rlookup]
    · have hk : ¬ k1 = k := by
        intro he
        subst he
        exact hnc.1 (List.mem_map_of_mem Prod.fst h0)
      simpa [rlookup, hk] using ih hnc.2 h0

theorem mem_of_rlookup {r : Record} {k : String} {v : Value} (h : rlookup r k = some v) :
    (k, v) ∈ r := by
  induction r with
  | nil => cases h
  | cons kv rest ih =>
    obtain ⟨k1, w⟩ := kv
    by_cases hk : k1 = k
    · subst hk
      simp only [rlookup, if_pos rfl] at h
      injection h with h1
      subst h1
      exact List.mem_cons_self _ _
    · simp only [rlookup, if_neg hk] at h
      exact List.mem_cons_of_mem _ (ih h)

theorem keys_match_iff {a b : Record} :
    keys_match a b = true ↔ ∀ k, (k ∈ rkeys a ↔ k ∈ rkeys b) := by
  unfold keys_match
  rw [Bool.and_eq_true, List.all_eq_true, List.all_eq_true]
  constructor
  · rintro ⟨h1, h2⟩ k
    constructor
    · intro hk
      simpa using h1 k hk
    · intro hk
      simpa using h2 k hk
  · intro h
    refine ⟨fun k hk => ?_, fun k hk => ?_⟩
    · simpa using (h k).1 hk
    · simpa using (h k).2 hk

theorem dFilter_nil_of_dictEq {E : List String} {a b : Record} (h : dictEq a b = true) :
    dFilter E a b = [] := by
  unfold dictEq at h
  rw [Bool.and_eq_true, List.all_eq_true, List.all_eq_true] at h
  unfold dFilter
  rw [List.filter_eq_nil_iff]
  intro kv hkv
  have := h.2 kv hkv
  rw [decide_eq_true_eq] at this
  simp [this]

theorem compare_loop_one (E : List String) (a : Record) (l : List (String × Value))
    (dk : Option String)
    (htot : ∀ kv ∈ l, kv.1 ∉ E → (rlookup a kv.1).isSome) :
    compare_loop E a l 1 dk = .ok (if dFilter E a l = [] then dk else none) := by
  induction l with
  | nil => simp [compare_loop, dFilter]
  | cons kv rest ih =>
    obtain ⟨k, v⟩ := kv
    have ihr := ih (fun kv hm => htot kv (List.mem_cons_of_mem _ hm))
    by_cases hE : k ∈ E
    · rw [show compare_loop E a ((k, v) :: rest) 1 dk = compare_loop E a rest 1 dk by
        simp [compare_loop, hE]]
      rw [ihr]
      have : dFilter E a ((k, v) :: rest) = dFilter E a rest := by
        simp [dFilter, List.filter, hE]
      rw [this]
    · have hs := htot (k, v) (List.mem_cons_self _ _) hE
      obtain ⟨av, hav⟩ := Option.isSome_iff_exists.1 hs
      by_cases heq : av = v
      · rw [show compare_loop E a ((k, v) :: rest) 1 dk = compare_loop E a rest 1 dk by
          simp [compare_loop, hE, hav, heq]]
        rw [ihr]
        have : dFilter E a ((k, v) :: rest) = dFilter E a rest := by
          simp [dFilter, List.filter, hE, hav, heq]
        rw [this]
      · rw [show compare_loop E a ((k, v) :: rest) 1 dk = .ok none by
          simp [compare_loop, hE, hav, heq]]
        have : dFilter E a ((k, v) :: rest) = (k, v) :: dFilter E a rest := by
          simp [dFilter, List.filter, hE, hav, heq]
        rw [this]
        simp

theorem compare_loop_zero (E : List String) (a : Record) (l : List (String × Value))
    (htot : ∀ kv ∈ l, kv.1 ∉ E → (rlookup a kv.1).isSome) :
    compare_loop E a l 0 none = .ok (match dFilter E a l with
      | [] => none
      | [kv] => some kv.1
      | _ :: _ :: _ => none) := by
  induction l with
  | nil => simp [compare_loop, dFilter, List.filter]
  | cons kv rest ih =>
    obtain ⟨k, v⟩ := kv
    have ihr := ih (fun kv hm => htot kv (List.mem_cons_of_mem _ hm))
    by_cases hE : k ∈ E
    · rw [show compare_loop E a ((k, v) :: rest) 0 none = compare_loop E a rest 0 none by
        simp [compare_loop, hE]]
      rw [ihr]
      have : dFilter E a ((k, v) :: rest) = dFilter E a rest := by
        simp [dFilter, List.filter, hE]
      rw [this]
    · have hs := htot (k, v) (List.mem_cons_self _ _) hE
      obtain ⟨av, hav⟩ := Option.isSome_iff_exists.1 hs
      by_cases heq : av = v
      · rw [show compare_loop E a ((k, v) :: rest) 0 none = compare_loop E a rest 0 none by
          simp [compare_loop, hE, hav, heq]]
        rw [ihr]
        have : dFilter E a ((k, v) :: rest) = dFilter E a rest := by
          simp [dFilter, List.filter, hE, hav, heq]
        rw [this]
      · rw [show compare_loop E a ((k, v) :: rest) 0 none =
            compare_loop E a rest 1 (some k) by
          simp [compare_loop, hE, hav, heq]]
        rw [compare_loop_one E a rest (some k)
          (fun kv hm => htot kv (List.mem_cons_of_mem _ hm))]
        have : dFilter E a ((k, v) :: rest) = (k, v) :: dFilter E a rest := by
          simp [dFilter, List.filter, hE, hav, heq]
        rw [this]
        cases hrest : dFilter E a rest with
        | nil => simp
        | cons kv2 t2 => simp

theorem compare_spec (E : List String) (a b : Record)
    (htot : ∀ kv ∈ b, kv.1 ∉ E → (rlookup a kv.1).isSome) :
    compare_data_point E a b = .ok (match dFilter E a b with
      | [] => none
      | [kv] => some kv.1
      | _ :: _ :: _ => none) := by
  unfold compare_data_point
  by_cases hde : dictEq a b
  · rw [if_pos hde, dFilter_nil_of_dictEq hde]
  · rw [if_neg hde]
    exact compare_loop_zero E a b htot

theorem compare_eq_some_of_dKeys (E : List String) (a b : Record) (k : String)
    (htot : ∀ kv ∈ b, kv.1 ∉ E → (rlookup a kv.1).isSome)
    (h : dKeys E a b = [k]) :
    compare_data_point E a b = .ok (some k) := by
  have hs := compare_spec E a b htot
  unfold dKeys at h
  cases hf : dFilter E a b with
  | nil => rw [hf] at h; cases h
  | cons kv t =>
    cases t with
    | nil =>
      rw [hf] at hs h
      simp only [List.map_cons, List.map_nil, List.cons.injEq, and_true] at h
      rw [hs]
      dsimp only
      rw [h]
    | cons kv2 t2 =>
      rw [hf] at h
      simp at h

theorem mem_dKeys_iff {E : List String} {a b : Record} (hnd : (rkeys b).Nodup) {k : String} :
    k ∈ dKeys E a b ↔ k ∉ E ∧ ∃ v, rlookup b k = some v ∧ rlookup a k ≠ some v := by
  unfold dKeys dFilter
  rw [List.mem_map]
  constructor
  · rintro ⟨kv, hkv, hfst⟩
    rw [List.mem_filter] at hkv
    obtain ⟨hmem, hpred⟩ := hkv
    rw [Bool.and_eq_true, decide_eq_true_eq, decide_eq_true_eq] at hpred
    obtain ⟨k1, v⟩ := kv
    cases hfst
    exact ⟨hpred.1, v, rlookup_eq_of_mem_nodup hnd hmem, hpred.2⟩
  · rintro ⟨hE, v, hb, hne⟩
    exact ⟨(k, v), List.mem_filter.2 ⟨mem_of_rlookup hb, by simp [hE, hne]⟩, rfl⟩

theorem dKeys_nodup {E : List String} {a b : Record} (hnd : (rkeys b).Nodup) :
    (dKeys E a b).Nodup := by
  unfold dKeys dFilter
  have hsub : (b.filter
      (fun kv => decide (kv.1 ∉ E) && decide (rlookup a kv.1 ≠ some kv.2))).Sublist b :=
    List.filter_sublist b
  have := hsub.map Prod.fst
  exact (by simpa [rkeys] using hnd : (b.map Prod.fst).Nodup).sublist this

theorem nodup_eq_singleton {α : Type} {l : List α} {k : α} (hnd : l.Nodup)
    (h : ∀ x, x ∈ l ↔ x = k) : l = [k] := by
  cases l with
  | nil => exact absurd ((h k).2 rfl) (List.not_mem_nil k)
  | cons x t =>
    have hx : x = k := (h x).1 (List.mem_cons_self _ _)
    subst hx
    have ht : t = [] := by
      rw [List.eq_nil_iff_forall_not_mem]
      intro y hy
      have hyk : y = x := (h y).1 (List.mem_cons_of_mem _ hy)
      subst hyk
      exact (List.nodup_cons.1 hnd).1 hy
    rw [ht]

/-- Claim C3: for records with identical attribute-name sets, the
comparator returns the unique non-excluded differing attribute when exactly
one exists (`dKeys E a b = [k]` — the non-excluded keys of `b` whose value
differs from `a`), and returns `None` when the records are identical or the
number of non-excluded differing attributes is 0 or at least 2; the final
conjunct identifies `dKeys` membership with the claim's notion of a
non-excluded differing attribute. -/
theorem C3_comparator (E : List String) (a b : Record)
    (hkm : keys_match a b = true) :
    (∀ k, dKeys E a b = [k] → compare_data_point E a b = .ok (some k)) ∧
    ((dictEq a b = true ∨ dKeys E a b = []) → compare_data_point E a b = .ok none) ∧
    (2 ≤ (dKeys E a b).length → compare_data_point E a b = .ok none) ∧
    ((rkeys b).Nodup → ∀ k, (k ∈ dKeys E a b ↔
      k ∉ E ∧ ∃ v, rlookup b k = some v ∧ rlookup a k ≠ some v)) := by
  have htot : ∀ kv ∈ b, kv.1 ∉ E → (rlookup a kv.1).isSome := by
    intro kv hkv _
    have hb : kv.1 ∈ rkeys b := List.mem_map_of_mem Prod.fst hkv
    exact mem_rkeys.1 ((keys_match_iff.1 hkm kv.1).2 hb)
  have hs := compare_spec E a b htot
  refine ⟨fun k h => compare_eq_some_of_dKeys E a b k htot h, ?_, ?_,
    fun hnd k => mem_dKeys_iff hnd⟩
  · intro h
    have hnil : dFilter E a b = [] := by
      rcases h with h | h
      · exact dFilter_nil_of_dictEq h
      · unfold dKeys at h
        exact List.map_eq_nil_iff.1 h
    rw [hnil] at hs
    exact hs
  · intro h
    cases hf : dFilter E a b with
    | nil =>
      unfold dKeys at h
      rw [hf] at h
      simp at h
    | cons kv t =>
      cases t with
      | nil =>
        unfold dKeys at h
        rw [hf] at h
        simp at h
      | cons kv2 t2 =>
        rw [hf] at hs
        exact hs

/-- Witness for C3 at the concrete records of the three-record example:
the only non-excluded differing attribute of `r2020` and `r2021` is
`Year`, and the comparator returns it. -/
theorem C3_comparator_witness :
    compare_data_point excluded_columns r2020 r2021 = .ok (some "Year") :=
  (C3_comparator excluded_columns r2020 r2021 (by rfl)).1 "Year" (by rfl)

/-- Claim C8: with identical attribute-name sets (no duplicate keys) and
exactly one non-excluded differing attribute `k`, the comparator returns
`k` for the pair in either argument order. -/
theorem C8_symmetric (E : List String) (a b : Record) (k : String)
    (hnda : (rkeys a).Nodup) (hndb : (rkeys b).Nodup)
    (hkm : keys_match a b = true)
    (hone : dKeys E a b = [k]) :
    compare_data_point E a b = .ok (some k) ∧ compare_data_point E b a = .ok (some k) := by
  have hiff := keys_match_iff.1 hkm
  have htotab : ∀ kv ∈ b, kv.1 ∉ E → (rlookup a kv.1).isSome := by
    intro kv hkv _
    exact mem_rkeys.1 ((hiff kv.1).2 (List.mem_map_of_mem Prod.fst hkv))
  have htotba : ∀ kv ∈ a, kv.1 ∉ E → (rlookup b kv.1).isSome := by
    intro kv hkv _
    exact mem_rkeys.1 ((hiff kv.1).1 (List.mem_map_of_mem Prod.fst hkv))
  have hmemab : ∀ x, x ∈ dKeys E a b ↔ x = k := by
    intro x
    rw [hone]
    simp
  have hmem : ∀ x, x ∈ dKeys E b a ↔ x = k := by
    intro x
    rw [mem_dKeys_iff hnda, ← hmemab x, mem_dKeys_iff hndb]
    constructor
    · rintro ⟨hE, w, ha, hbne⟩
      have hbx : (rlookup b x).isSome :=
        mem_rkeys.1 ((hiff x).1 (mem_rkeys.2 (by rw [ha]; rfl)))
      obtain ⟨v, hv⟩ := Option.isSome_iff_exists.1 hbx
      refine ⟨hE, v, hv, ?_⟩
      rw [ha]
      intro hc
      injection hc with hc
      apply hbne
      rw [hv, hc]
    · rintro ⟨hE, v, hb, hane⟩
      have hax : (rlookup a x).isSome :=
        mem_rkeys.1 ((hiff x).2 (mem_rkeys.2 (by rw [hb]; rfl)))
      obtain ⟨w, hw⟩ := Option.isSome_iff_exists.1 hax
      refine ⟨hE, w, hw, ?_⟩
      rw [hb]
      intro hc
      injection hc with hc
      apply hane
      rw [hw, hc]
  exact ⟨compare_eq_some_of_dKeys E a b k htotab hone,
    compare_eq_some_of_dKeys E b a k htotba
      (nodup_eq_singleton (dKeys_nodup hnda) hmem)⟩

/-- Witness for C8 at records `a1`, `a2` differing exactly at `Year`. -/
theorem C8_symmetric_witness :
    compare_data_point excluded_columns a1 a2 = .ok (some "Year") ∧
    compare_data_point excluded_columns a2 a1 = .ok (some "Year") :=
  C8_symmetric excluded_columns a1 a2 "Year" (by decide) (by decide) (by rfl) (by rfl)

/-- Counterexample to claim C7: for two records with different
attribute-name sets the comparator itself does not return `None` — here it
returns the key `k`, because it only walks the second record's keys. -/
theorem C7_counterexample :
    keys_match [("j", Value.num 5), ("k", Value.num 1)] [("k", Value.num 2)] = false ∧
    compare_data_point [] [("j", Value.num 5), ("k", Value.num 1)] [("k", Value.num 2)] =
      .ok (some "k") :=
  ⟨by rfl, by rfl⟩

/-- Claim C7 (amended): the schema-mismatch short-circuit lives in the
caller, not in `compare_data_point`: `group_and_summarize_data` skips any
ordered pair whose key sets differ before invoking the comparator, leaving
the group state unchanged and raising nothing; the comparator itself may
return a key or raise `KeyError` on schema-mismatched inputs. -/
theorem C7_schema_mismatch_skipped_by_guard (E : List String) (st : List (List Record))
    (p q : Record) (h : keys_match p q = false) :
    processPair E st p q = .ok st := by
  simp [processPair, h]

/-- Witness for C7 (amended): the guard skips the concrete mismatched pair. -/
theorem C7_schema_mismatch_skipped_by_guard_witness :
    processPair [] [[a1, a2, sA]] [("j", Value.num 5), ("k", Value.num 1)] [("k", Value.num 2)] =
      .ok [[a1, a2, sA]] :=
  C7_schema_mismatch_skipped_by_guard [] [[a1, a2, sA]]
    [("j", Value.num 5), ("k", Value.num 1)] [("k", Value.num 2)] (by rfl)

theorem mem_add_missing {g : List Record} {d : Record} (p q : Record) (hd : d ∈ g) :
    d ∈ add_missing g p q := by
  unfold add_missing
  by_cases h1 : memR p g
  · simp only [if_pos h1]
    by_cases h2 : memR q g
    · simp only [if_pos h2]
      exact hd
    · simp only [if_neg h2]
      exact List.mem_append_left _ hd
  · simp only [if_neg h1]
    by_cases h2 : memR q (g ++ [p])
    · simp only [if_pos h2]
      exact List.mem_append_left _ hd
    · simp only [if_neg h2]
      exact List.mem_append_left _ (List.mem_append_left _ hd)

theorem mem_set_summary {g : List Record} {d s : Record} (hd : d ∈ g)
    (hns : hasSentinel d = false) : d ∈ set_summary g s := by
  induction g with
  | nil => cases hd
  | cons d0 rest ih =>
    by_cases h0 : hasSentinel d0
    · rw [show set_summary (d0 :: rest) s = s :: rest by simp [set_summary, h0]]
      rcases List.mem_cons.1 hd with h | h
      · subst h
        rw [h0] at hns
        cases hns
      · exact List.mem_cons_of_mem _ h
    · rw [show set_summary (d0 :: rest) s = d0 :: set_summary rest s by
        simp [set_summary, h0]]
      rcases List.mem_cons.1 hd with h | h
      · subst h
        exact List.mem_cons_self _ _
      · exact List.mem_cons_of_mem _ (ih h)

theorem mem_of_extend_group {g g1 : List Record} {p q d : Record}
    (hok : extend_group g p q = .ok g1) (hd : d ∈ g) (hns : hasSentinel d = false) :
    d ∈ g1 := by
  unfold extend_group at hok
  have hd2 : d ∈ add_missing g p q := mem_add_missing p q hd
  cases hs : get_summary_dict (add_missing g p q) with
  | error e => rw [hs] at hok; cases hok
  | ok s =>
    rw [hs] at hok
    dsimp only at hok
    cases hu : update_summary_dict s (add_missing g p q) with
    | error e => rw [hu] at hok; cases hok
    | ok s1 =>
      rw [hu] at hok
      cases hok
      exact mem_set_summary hd2 hns

theorem allCompareEq_ne_true_of_memR (E : List String) (g : List Record) (q : Record)
    (k : String) (hq : memR q g = true) : allCompareEq E g q k ≠ .ok true := by
  induction g with
  | nil => simp [memR] at hq
  | cons dp rest ih =>
    rw [show memR q (dp :: rest) = (dictEq dp q || memR q rest) by simp [memR]] at hq
    by_cases hd : dictEq dp q
    · rw [show allCompareEq E (dp :: rest) q k = .ok false by
        simp [allCompareEq, compare_data_point, hd]]
      intro hc
      cases hc
    · have hqr : memR q rest = true := by
        simpa [hd] using hq
      unfold allCompareEq
      cases hc : compare_data_point E dp q with
      | error e =>
        intro h2
        cases h2
      | ok r =>
        dsimp only
        by_cases hr : r = some k
        · rw [if_pos hr]
          exact ih hqr
        · rw [if_neg hr]
          intro h2
          cases h2

/-- Claim C6: processing a record pair that is already fully reflected in a
group (both records are members) leaves that group entirely unchanged —
same membership, same summary — whatever `add_points_to_groups` does
elsewhere with the pair. -/
theorem C6_pair_already_reflected_leaves_group_unchanged (E : List String) (p q : Record)
    (k : String) :
    ∀ (st st' : List (List Record)),
      add_points_to_groups E p q k st = .ok st' →
      ∀ (j : Nat) (g : List Record), st[j]? = some g →
        memR p g = true → memR q g = true →
        st'[j]? = some g := by
  intro st
  induction st with
  | nil =>
    intro st' hok j g hj hp hq
    simp at hj
  | cons g0 rest ih =>
    intro st' hok j g hj hp hq
    unfold add_points_to_groups at hok
    cases hm : group_matches E g0 p q k with
    | error e => rw [hm] at hok; cases hok
    | ok b =>
      rw [hm] at hok
      cases b
      · dsimp only at hok
        cases hrec : add_points_to_groups E p q k rest with
        | error e => rw [hrec] at hok; cases hok
        | ok rest1 =>
          rw [hrec] at hok
          cases hok
          cases j with
          | zero => simpa using hj
          | succ j' =>
            rw [List.getElem?_cons_succ] at hj ⊢
            exact ih rest1 hrec j' g hj hp hq
      · dsimp only at hok
        cases hextend : extend_group g0 p q with
        | error e => rw [hextend] at hok; cases hok
        | ok g1 =>
          rw [hextend] at hok
          cases hok
          cases j with
          | zero =>
            rw [List.getElem?_cons_zero] at hj
            injection hj with hj
            rw [← hj] at hp hq
            unfold group_matches at hm
            rw [hp, hq] at hm
            simp only [Bool.or_self, if_pos] at hm
            exact absurd hm (allCompareEq_ne_true_of_memR E g0 q k hq)
          | succ j' =>
            rw [List.getElem?_cons_succ] at hj ⊢
            exact hj

/-- Witness for C6: both records of the pair `(a1, a2)` are already in the
group `[a1, a2, sA]`; the group at index 0 is unchanged (the registry
instead appends a duplicate group). -/
theorem C6_pair_already_reflected_leaves_group_unchanged_witness :
    ([[a1, a2, sA], [a1, a2, sA]] : List (List Record))[0]? = some [a1, a2, sA] :=
  C6_pair_already_reflected_leaves_group_unchanged excluded_columns a1 a2 "Year"
    [[a1, a2, sA]] [[a1, a2, sA], [a1, a2, sA]] (by with_unfolding_all rfl) 0 [a1, a2, sA]
    (by rfl) (by rfl) (by rfl)

/-- Counterexample to claim C2: the state holds two groups with differing
key `Year`; both contain `p = a1` (second conjunct), so by the claim each
should be extended with the missing `q = a4`.  The code extends only the
first group (scan order plus `break`) and leaves the second untouched:
`a4` is not a member of the second result group (third conjunct). -/
theorem C2_counterexample :
    add_points_to_groups excluded_columns a1 a4 "Year" [[a1, a2, sA], [a1, a3, sB]] =
      .ok [[a1, a2, sA85, a4], [a1, a3, sB]] ∧
    memR a1 [a1, a3, sB] = true ∧
    memR a4 [a1, a3, sB] = false :=
  ⟨by with_unfolding_all rfl, by rfl, by rfl⟩

/-- Claim C2 (amended): when the comparator returns differing key `k` for a
pair `(p, q)`, the registry extends at most one existing group — the first,
in scan order, all of whose members compare against `q` to exactly `k`
(in particular no group that already contains `q`); every other group is
left unchanged at its index, the group count grows by at most one, and no
two groups are merged (every non-summary member of every group survives at
the same group index). -/
theorem C2_extends_at_most_one_group (E : List String) (p q : Record) (k : String) :
    ∀ (st st' : List (List Record)),
      add_points_to_groups E p q k st = .ok st' →
      (st'.length = st.length ∨ st'.length = st.length + 1) ∧
      (∃ i, ∀ j, j < st.length → j ≠ i → st'[j]? = st[j]?) ∧
      (∀ (j : Nat) (g : List Record), st[j]? = some g → ∃ g', st'[j]? = some g' ∧
        ∀ d ∈ g, hasSentinel d = false → d ∈ g') := by
  intro st
  induction st with
  | nil =>
    intro st' hok
    unfold add_points_to_groups at hok
    cases hc : create_summary_dict [p, q] k with
    | error e => rw [hc] at hok; cases hok
    | ok s =>
      rw [hc] at hok
      cases hok
      refine ⟨Or.inr rfl, ⟨0, fun j hj _ => absurd hj (by simp)⟩, ?_⟩
      intro j g hj
      simp at hj
  | cons g0 rest ih =>
    intro st' hok
    unfold add_points_to_groups at hok
    cases hm : group_matches E g0 p q k with
    | error e => rw [hm] at hok; cases hok
    | ok b =>
      rw [hm] at hok
      cases b
      · dsimp only at hok
        cases hrec : add_points_to_groups E p q k rest with
        | error e => rw [hrec] at hok; cases hok
        | ok rest1 =>
          rw [hrec] at hok
          cases hok
          obtain ⟨hlen, ⟨i, hi⟩, hext⟩ := ih rest1 hrec
          refine ⟨?_, ⟨i + 1, ?_⟩, ?_⟩
          · rcases hlen with h | h
            · left
              simp [h]
            · right
              simp [h]
          · intro j hj hne
            cases j with
            | zero => simp
            | succ j' =>
              rw [List.getElem?_cons_succ, List.getElem?_cons_succ]
              refine hi j' (by simpa using hj) ?_
              intro hc
              exact hne (by rw [hc])
          · intro j g hj
            cases j with
            | zero =>
              rw [List.getElem?_cons_zero] at hj ⊢
              injection hj with hj
              refine ⟨g0, rfl, ?_⟩
              intro d hd _
              rw [hj]
              exact hd
            | succ j' =>
              rw [List.getElem?_cons_succ] at hj ⊢
              exact hext j' g hj
      · dsimp only at hok
        cases hextend : extend_group g0 p q with
        | error e => rw [hextend] at hok; cases hok
        | ok g1 =>
          rw [hextend] at hok
          cases hok
          refine ⟨Or.inl rfl, ⟨0, ?_⟩, ?_⟩
          · intro j hj hne
            cases j with
            | zero => exact absurd rfl hne
            | succ j' =>
              rw [List.getElem?_cons_succ, List.getElem?_cons_succ]
          · intro j g hj
            cases j with
            | zero =>
              rw [List.getElem?_cons_zero] at hj ⊢
              injection hj with hj
              refine ⟨g1, rfl, ?_⟩
              intro d hd hns
              rw [← hj] at hd
              exact mem_of_extend_group hextend hd hns
            | succ j' =>
              rw [List.getElem?_cons_succ] at hj ⊢
              exact ⟨g, hj, fun d hd _ => hd⟩

theorem mem_saddV {vs : List Value} {v x : Value} : x ∈ saddV vs v ↔ x ∈ vs ∨ x = v := by
  unfold saddV
  by_cases h : v ∈ vs
  · rw [if_pos h]
    constructor
    · exact Or.inl
    · rintro (hx | hx)
      · exact hx
      · rw [hx]
        exact h
  · rw [if_neg h]
    simp [List.mem_append]

theorem tvals_addVal_self (t : List (String × List Value)) (k : String) (v : Value) :
    tvals (addVal t k v) k = saddV (tvals t k) v := by
  induction t with
  | nil => simp [addVal, tvals, saddV]
  | cons kv rest ih =>
    obtain ⟨k1, vs⟩ := kv
    by_cases h : k1 = k
    · subst h
      simp [addVal, tvals]
    · simp [addVal, tvals, h, ih]

theorem tvals_addVal_ne (t : List (String × List Value)) {k1 k : String} (v : Value)
    (h : k1 ≠ k) : tvals (addVal t k1 v) k = tvals t k := by
  induction t with
  | nil => simp [addVal, tvals, h]
  | cons kv rest ih =>
    obtain ⟨k2, vs⟩ := kv
    by_cases h2 : k2 = k1
    · subst h2
      simp [addVal, tvals, h]
    · by_cases h3 : k2 = k
      · subst h3
        simp [addVal, tvals, h2]
      · simp [addVal, tvals, h2, h3, ih]

theorem mem_tvals_foldl_gitAdd (d : Record) (sk : List String) :
    ∀ (t : List (String × List Value)) (k : String) (x : Value),
      x ∈ tvals (sk.foldl (gitAdd d) t) k ↔
        (x ∈ tvals t k ∨ (k ∈ sk ∧ rlookup d k = some x)) := by
  induction sk with
  | nil =>
    intro t k x
    simp
  | cons k1 rest ih =>
    intro t k x
    rw [List.foldl_cons, ih]
    constructor
    · rintro (hx | ⟨hk, hlk⟩)
      · unfold gitAdd at hx
        cases hl : rlookup d k1 with
        | none =>
          rw [hl] at hx
          exact Or.inl hx
        | some v =>
          rw [hl] at hx
          by_cases hk1 : k1 = k
          · subst hk1
            rw [tvals_addVal_self, mem_saddV] at hx
            rcases hx with hx | hx
            · exact Or.inl hx
            · exact Or.inr ⟨List.mem_cons_self _ _, by rw [hl, hx]⟩
          · rw [tvals_addVal_ne _ _ hk1] at hx
            exact Or.inl hx
      · exact Or.inr ⟨List.mem_cons_of_mem _ hk, hlk⟩
    · rintro (hx | ⟨hk, hlk⟩)
      · left
        unfold gitAdd
        cases hl : rlookup d k1 with
        | none => exact hx
        | some v =>
          by_cases hk1 : k1 = k
          · subst hk1
            rw [tvals_addVal_self, mem_saddV]
            exact Or.inl hx
          · rw [tvals_addVal_ne _ _ hk1]
            exact hx
      · rcases List.mem_cons.1 hk with h | h
        · subst h
          left
          unfold gitAdd
          rw [hlk, tvals_addVal_self, mem_saddV]
          exact Or.inr rfl
        · exact Or.inr ⟨h, hlk⟩

theorem gitStep_invariant (st : GitState) (d : Record) (k : String)
    (hst : k ∈ st.shared_keys) (hd : (rlookup d k).isSome) :
    k ∈ (gitStep st d).shared_keys ∧
    (∀ x, x ∈ tvals (gitStep st d).shared_keys_values k ↔
      (x ∈ tvals st.shared_keys_values k ∨ rlookup d k = some x)) := by
  have hksk : k ∈ st.shared_keys.filter (fun k => (rlookup d k).isSome) :=
    List.mem_filter.2 ⟨hst, by simpa using hd⟩
  refine ⟨hksk, fun x => ?_⟩
  show x ∈ tvals ((st.shared_keys.filter
    (fun k => (rlookup d k).isSome)).foldl (gitAdd d) st.shared_keys_values) k ↔ _
  rw [mem_tvals_foldl_gitAdd]
  constructor
  · rintro (hx | ⟨_, hlk⟩)
    · exact Or.inl hx
    · exact Or.inr hlk
  · rintro (hx | hlk)
    · exact Or.inl hx
    · exact Or.inr ⟨hksk, hlk⟩

theorem git_foldl_records (k : String) :
    ∀ (ds : List Record) (st : GitState),
      k ∈ st.shared_keys → (∀ d ∈ ds, (rlookup d k).isSome) →
      k ∈ (ds.foldl gitStep st).shared_keys ∧
      (∀ x, x ∈ tvals (ds.foldl gitStep st).shared_keys_values k ↔
        (x ∈ tvals st.shared_keys_values k ∨ ∃ d ∈ ds, rlookup d k = some x)) := by
  intro ds
  induction ds with
  | nil =>
    intro st hst _
    exact ⟨hst, fun x => by simp⟩
  | cons d rest ih =>
    intro st hst hall
    rw [List.foldl_cons]
    have h1 := gitStep_invariant st d k hst (hall d (List.mem_cons_self _ _))
    have h2 := ih (gitStep st d) h1.1 (fun d2 hd2 => hall d2 (List.mem_cons_of_mem _ hd2))
    refine ⟨h2.1, fun x => ?_⟩
    rw [h2.2 x, h1.2 x]
    constructor
    · rintro ((hx | hlk) | ⟨d2, hd2, hlk⟩)
      · exact Or.inl hx
      · exact Or.inr ⟨d, List.mem_cons_self _ _, hlk⟩
      · exact Or.inr ⟨d2, List.mem_cons_of_mem _ hd2, hlk⟩
    · rintro (hx | ⟨d2, hd2, hlk⟩)
      · exact Or.inl (Or.inl hx)
      · rcases List.mem_cons.1 hd2 with h | h
        · subst h
          exact Or.inl (Or.inr hlk)
        · exact Or.inr ⟨d2, h, hlk⟩

theorem git_foldl_groups (k : String) :
    ∀ (gs : List (List Record)) (st : GitState),
      k ∈ st.shared_keys → (∀ g ∈ gs, ∀ d ∈ g, (rlookup d k).isSome) →
      k ∈ (gs.foldl (fun st g => g.foldl gitStep st) st).shared_keys ∧
      (∀ x, x ∈ tvals (gs.foldl (fun st g => g.foldl gitStep st) st).shared_keys_values k ↔
        (x ∈ tvals st.shared_keys_values k ∨ ∃ g ∈ gs, ∃ d ∈ g, rlookup d k = some x)) := by
  intro gs
  induction gs with
  | nil =>
    intro st hst _
    exact ⟨hst, fun x => by simp⟩
  | cons g rest ih =>
    intro st hst hall
    rw [List.foldl_cons]
    have h1 := git_foldl_records k g st hst (hall g (List.mem_cons_self _ _))
    have h2 := ih (g.foldl gitStep st) h1.1 (fun g2 hg2 => hall g2 (List.mem_cons_of_mem _ hg2))
    refine ⟨h2.1, fun x => ?_⟩
    rw [h2.2 x, h1.2 x]
    constructor
    · rintro ((hx | ⟨d2, hd2, hlk⟩) | ⟨g2, hg2, d2, hd2, hlk⟩)
      · exact Or.inl hx
      · exact Or.inr ⟨g, List.mem_cons_self _ _, d2, hd2, hlk⟩
      · exact Or.inr ⟨g2, List.mem_cons_of_mem _ hg2, d2, hd2, hlk⟩
    · rintro (hx | ⟨g2, hg2, d2, hd2, hlk⟩)
      · exact Or.inl (Or.inl hx)
      · rcases List.mem_cons.1 hg2 with h | h
        · subst h
          exact Or.inl (Or.inr ⟨d2, hd2, hlk⟩)
        · exact Or.inr ⟨g2, h, d2, hd2, hlk⟩

/-- Counterexample to claim C4: attribute `Extra` is present in records
`rgA`, `rgB` but absent from `rgC`; the claim says such an attribute has no
entry in the table at all, yet the code's table retains a stale `Extra`
entry with the values observed while `Extra` was still in the running
intersection. -/
theorem C4_counterexample :
    git_of_groups [[rgA, rgB], [rgC]] =
      .ok ⟨["Region"],
        [("Region", [Value.str "A", Value.str "B"]),
         ("Extra", [Value.str "X", Value.str "Y"])]⟩ ∧
    rlookup rgC "Extra" = none ∧
    tvals [("Region", [Value.str "A", Value.str "B"]),
      ("Extra", [Value.str "X", Value.str "Y"])] "Extra" = [Value.str "X", Value.str "Y"] :=
  ⟨by rfl, by rfl, by rfl⟩

/-- Claim C4 (amended): for every attribute `k` present in every record of
the grouped input, the table's entry for `k` is exactly the set of values
observed for `k` across all records (so Region over values A, A, B maps to
the set with members A and B); an attribute present in only some records,
however, may still retain a stale entry. -/
theorem C4_git_covers_universal_attributes (d0 : Record) (g0rest : List Record)
    (grest : List (List Record)) (k : String) (st : GitState)
    (hall : ∀ g ∈ (d0 :: g0rest) :: grest, ∀ d ∈ g, (rlookup d k).isSome)
    (hok : git_of_groups ((d0 :: g0rest) :: grest) = .ok st) :
    ∀ x, x ∈ tvals st.shared_keys_values k ↔
      ∃ g ∈ (d0 :: g0rest) :: grest, ∃ d ∈ g, rlookup d k = some x := by
  unfold git_of_groups at hok
  injection hok with hok
  have hk0 : k ∈ rkeys d0 :=
    mem_rkeys.2 (hall (d0 :: g0rest) (List.mem_cons_self _ _) d0 (List.mem_cons_self _ _))
  have h := git_foldl_groups k ((d0 :: g0rest) :: grest) ⟨rkeys d0, []⟩ hk0 hall
  intro x
  rw [← hok, h.2 x]
  simp [tvals]

/-- Witness for C4 (amended), the claim's Region example: over records with
Region values A, A, B the table entry for Region contains the observed
value B. -/
theorem C4_git_covers_universal_attributes_witness :
    Value.str "B" ∈ tvals ([("Region", [Value.str "A", Value.str "B"]),
        ("Data_Value", [Value.num 1, Value.num 2, Value.num 3])] :
        List (String × List Value)) "Region" :=
  (C4_git_covers_universal_attributes x1 [x2, x3] [] "Region"
    ⟨["Region", "Data_Value"],
     [("Region", [Value.str "A", Value.str "B"]),
      ("Data_Value", [Value.num 1, Value.num 2, Value.num 3])]⟩
    (by decide) (by rfl) (Value.str "B")).mpr
    ⟨[x1, x2, x3], List.mem_cons_self _ _, x3,
      List.mem_cons_of_mem _ (List.mem_cons_of_mem _ (List.mem_cons_self _ _)), by rfl⟩

/-- Witness for C2 (amended) at the counterexample state: only the first
group is touched; group 1 is unchanged and the group count is unchanged. -/
theorem C2_extends_at_most_one_group_witness :
    (([[a1, a2, sA85, a4], [a1, a3, sB]] : List (List Record)).length =
        ([[a1, a2, sA], [a1, a3, sB]] : List (List Record)).length ∨
      ([[a1, a2, sA85, a4], [a1, a3, sB]] : List (List Record)).length =
        ([[a1, a2, sA], [a1, a3, sB]] : List (List Record)).length + 1) ∧
    (∃ i, ∀ j, j < ([[a1, a2, sA], [a1, a3, sB]] : List (List Record)).length → j ≠ i →
      ([[a1, a2, sA85, a4], [a1, a3, sB]] : List (List Record))[j]? =
        ([[a1, a2, sA], [a1, a3, sB]] : List (List Record))[j]?) ∧
    (∀ (j : Nat) (g : List Record),
      ([[a1, a2, sA], [a1, a3, sB]] : List (List Record))[j]? = some g →
      ∃ g', ([[a1, a2, sA85, a4], [a1, a3, sB]] : List (List Record))[j]? = some g' ∧
        ∀ d ∈ g, hasSentinel d = false → d ∈ g') :=
  C2_extends_at_most_one_group excluded_columns a1 a4 "Year"
    [[a1, a2, sA], [a1, a3, sB]] [[a1, a2, sA85, a4], [a1, a3, sB]] (by with_unfolding_all rfl)

/-- Claim C1, code-bug evidence: on the claim's three-record input (records
identical except `Year` ∈ 2020, 2021, 2022 with `Data_Value` 10, 20, 30)
under the standard exclusion list, `group_and_summarize_data` does not
return exactly one four-member group with summary mean 20: it returns
three groups (two of them duplicate clusters of the same records, created
because a pair whose records already share a group fails the
all-members-compare check), and the first group's summary `Data_Value` is
75/4 = 18.75, because the recompute averages the summary's own stale value
15 together with the members' 10, 20 and 30. -/
theorem C1_three_record_run :
    group_and_summarize_data excluded_columns [r2020, r2021, r2022] =
      .ok [[r2020, r2021, sM75, r2022],
           [r2021, r2020, sM75, r2022],
           [r2022, r2020, sM20, r2021]] ∧
    ([[r2020, r2021, sM75, r2022],
      [r2021, r2020, sM75, r2022],
      [r2022, r2020, sM20, r2021]] : List (List Record)).length = 3 ∧
    rlookup sM75 "Data_Value" = some (Value.num (75 / 4)) ∧
    rlookup sM75 "Year" = some sentinel :=
  ⟨by with_unfolding_all rfl, by rfl, by rfl, by rfl⟩

end StatsImport
